import Mathlib

/-!
Verification of the gmail-attachment-downloader core against its
natural-language specification.

The Python sources are shallowly embedded:
* `gmail_utils.search_messages` (pagination + retry loop) becomes
  `page_loop` / `retry_loop` / `search_messages` over an abstract provider,
  instrumented with the list of page requests, the sleeps performed and the
  number of retry attempts used.
* `gmail_utils.get_unique_senders` becomes `get_unique_senders` over the
  same provider plus an abstract per-message header fetch.
* `attachment_handler.sanitize_filename`, `classify_extension`,
  `save_attachment`'s path composition, `extract_attachments` and
  `create_zip_from_attachments` become char-list functions.
* `ui_components.format_query` becomes `format_query` over a date record.
Remote calls and the random/clock inputs are passed in as explicit
parameters; exceptions become `Except` values.
-/

namespace GmailDl

/-! ### Constants from gmail_utils.py -/

def RETRIES : Nat := 3

def BATCH_SIZE : Nat := 25

def RETRY_DELAY : Nat := 2

/-! ### The provider interface (Gmail `users().messages().list`) -/

/-- One page returned by the provider: `{'messages': [...], 'nextPageToken': ...}`. -/
structure Page where
  messages : List String
  nextPageToken : Option String
deriving DecidableEq, Repr

/-- An exception raised by a provider call: `HttpError` with a status, or any
other exception type. -/
inductive ApiError where
  | http (status : Nat)
  | generic
deriving DecidableEq, Repr

/-- The provider: given the query, the page token and the requested
`maxResults` for this page, return a page or raise. -/
abbrev Provider := String → Option String → Nat → Except ApiError Page

/-- Result of the inner `while` loop of `search_messages`: either it finishes
(`maxResults` reached, empty page, or missing continuation token) or a page
request raises, in which case the messages collected so far and the current
page token survive into the `except` handler.  `requests` records, for each
page request issued, the number of messages already collected at that moment
and the page size asked for. -/
inductive PageOutcome where
  | ok (messages : List String) (requests : List (Nat × Nat))
  | err (e : ApiError) (messages : List String) (pageToken : Option String)
      (requests : List (Nat × Nat))
deriving DecidableEq, Repr

/-- The page requests recorded in a `PageOutcome`. -/
def PageOutcome.requests : PageOutcome → List (Nat × Nat)
  | .ok _ reqs => reqs
  | .err _ _ _ reqs => reqs

/-- The `while len(messages) < max_results` loop of `search_messages`
(gmail_utils.py lines 102-121).  `fuel` is an upper bound on the number of
iterations; since every executed iteration appends at least one message and
iterations only run while `messages.length < max_results`, any
`fuel ≥ max_results - messages.length` makes the fuel-exhaustion branch
coincide with the loop's own exit. -/
def page_loop (provider : Provider) (query : String) (max_results : Nat) :
    Nat → List String → Option String → List (Nat × Nat) → PageOutcome
  | 0, messages, _, reqs => .ok messages reqs
  | fuel + 1, messages, page_token, reqs =>
    if messages.length < max_results then
      let current_batch := min BATCH_SIZE (max_results - messages.length)
      let reqs2 := reqs ++ [(messages.length, current_batch)]
      match provider query page_token current_batch with
      | .error e => .err e messages page_token reqs2
      | .ok result =>
        if result.messages.isEmpty then
          .ok messages reqs2
        else
          match result.nextPageToken with
          | none => .ok (messages ++ result.messages) reqs2
          | some t =>
            page_loop provider query max_results fuel
              (messages ++ result.messages) (some t) reqs2
    else
      .ok messages reqs

/-- Result of a whole `search_messages` call: the returned list or the raised
exception, together with the number of `for attempt in range(RETRIES)`
iterations executed, the sleeps performed before retries, and all page
requests issued. -/
structure SearchResult where
  outcome : Except ApiError (List String)
  attempts : Nat
  sleeps : List Nat
  requests : List (Nat × Nat)
deriving Repr

/-- `e.resp.status in [429, 500, 503]` (gmail_utils.py line 127). -/
def transient_status (s : Nat) : Bool :=
  s == 429 || s == 500 || s == 503

/-- The `for attempt in range(RETRIES)` loop of `search_messages`
(gmail_utils.py lines 100-140).  On success the try block returns
`messages[:max_results]`; an `HttpError` with transient status and remaining
attempt budget sleeps `RETRY_DELAY * (attempt + 1)` and retries from the
current messages/page-token position; any other exception with remaining
budget sleeps `RETRY_DELAY`; otherwise the exception propagates.  `fuel`
bounds the attempts; it starts at `RETRIES` and the recursion is guarded by
`attempt < RETRIES - 1`, so the fuel-0 branch is never reached from
`search_messages`. -/
def retry_loop (provider : Provider) (query : String) (max_results : Nat) :
    Nat → Nat → List String → Option String → List Nat → List (Nat × Nat) →
      SearchResult
  | 0, attempt, messages, _, sleeps, reqs =>
    ⟨.ok (messages.take max_results), attempt, sleeps, reqs⟩
  | fuel + 1, attempt, messages, page_token, sleeps, reqs =>
    match page_loop provider query max_results max_results messages page_token
        reqs with
    | .ok msgs reqs2 => ⟨.ok (msgs.take max_results), attempt + 1, sleeps, reqs2⟩
    | .err e msgs tok reqs2 =>
      match e with
      | .http s =>
        if transient_status s ∧ attempt < RETRIES - 1 then
          retry_loop provider query max_results fuel (attempt + 1) msgs tok
            (sleeps ++ [RETRY_DELAY * (attempt + 1)]) reqs2
        else ⟨.error (.http s), attempt + 1, sleeps, reqs2⟩
      | .generic =>
        if attempt < RETRIES - 1 then
          retry_loop provider query max_results fuel (attempt + 1) msgs tok
            (sleeps ++ [RETRY_DELAY]) reqs2
        else ⟨.error .generic, attempt + 1, sleeps, reqs2⟩

/-- `search_messages(service, query, max_results)` (gmail_utils.py 94-142). -/
def search_messages (provider : Provider) (query : String)
    (max_results : Nat) : SearchResult :=
  retry_loop provider query max_results RETRIES 0 [] none [] []

/-! ### Concrete providers used to evaluate the model -/

/-- A provider that always raises a rate-limit error. -/
def always_429_provider : Provider := fun _ _ _ => .error (.http 429)

/-- A provider that always raises HTTP 502 (a 5xx-class status that
`search_messages` does not treat as retryable). -/
def always_502_provider : Provider := fun _ _ _ => .error (.http 502)

/-- A provider that always returns one message and a continuation token. -/
def one_msg_provider : Provider := fun _ _ _ => .ok ⟨["m"], some "t"⟩

/-- A provider that returns three messages and no continuation token. -/
def three_msg_provider : Provider := fun _ _ _ => .ok ⟨["a", "b", "c"], none⟩

/-! ### Lemmas about the pagination/retry loops -/

/-- The messages component of a page-loop outcome: the list reached when
the loop finished, or the list already collected when a page request
raised. -/
def PageOutcome.messages : PageOutcome → List String
  | .ok msgs _ => msgs
  | .err _ msgs _ _ => msgs

/-- The message batches committed by the `while` loop of `search_messages`
from a given pagination position on: each entry is the `messages` list of
one provider page that the loop appended via `messages.extend(...)`.  A
page request that raises, and a page with zero results, commit nothing. -/
def page_batches (provider : Provider) (query : String) (max_results : Nat) :
    Nat → List String → Option String → List (List String)
  | 0, _, _ => []
  | fuel + 1, messages, page_token =>
    if messages.length < max_results then
      match provider query page_token
          (min BATCH_SIZE (max_results - messages.length)) with
      | .error _ => []
      | .ok result =>
        if result.messages.isEmpty then []
        else
          match result.nextPageToken with
          | none => [result.messages]
          | some t =>
            result.messages ::
              page_batches provider query max_results fuel
                (messages ++ result.messages) (some t)
    else []

/-- The messages reached by the page loop are the starting messages
followed by the batches it committed — whether the loop finished or handed
an exception to the retry logic. -/
theorem page_loop_messages_eq (provider : Provider) (query : String)
    (max_results : Nat) :
    ∀ fuel (msgs : List String) (tok : Option String)
      (reqs : List (Nat × Nat)),
      (page_loop provider query max_results fuel msgs tok reqs).messages =
        msgs ++
          (page_batches provider query max_results fuel msgs tok).flatten := by
  intro fuel
  induction fuel with
  | zero =>
    intro msgs tok reqs
    simp [page_loop, page_batches, PageOutcome.messages]
  | succ f ih =>
    intro msgs tok reqs
    by_cases hlt : msgs.length < max_results
    · cases hc : provider query tok
          (min BATCH_SIZE (max_results - msgs.length)) with
      | error e =>
        simp [page_loop, page_batches, if_pos hlt, hc, PageOutcome.messages]
      | ok result =>
        by_cases hemp : result.messages.isEmpty
        · simp [page_loop, page_batches, if_pos hlt, hc, hemp,
            PageOutcome.messages]
        · cases ht : result.nextPageToken with
          | none =>
            simp [page_loop, page_batches, if_pos hlt, hc, hemp, ht,
              PageOutcome.messages]
          | some t =>
            simp only [page_loop, page_batches, if_pos hlt, hc, hemp, ht,
              Bool.false_eq_true, if_false]
            rw [ih]
            simp
    · simp [page_loop, page_batches, if_neg hlt, PageOutcome.messages]

/-- When the page loop hands an exception to the retry logic, the messages
collected so far — the starting position plus all batches this round
committed — are still short of the bound, because the failing page request
was issued under the `while len(messages) < max_results` guard. -/
theorem page_loop_err_batches_lt (provider : Provider) (query : String)
    (max_results : Nat) :
    ∀ fuel (msgs : List String) (tok : Option String)
      (reqs : List (Nat × Nat)) e ms tk rs,
      page_loop provider query max_results fuel msgs tok reqs
          = .err e ms tk rs →
      msgs.length +
        (page_batches provider query max_results fuel msgs tok).flatten.length
        < max_results := by
  intro fuel
  induction fuel with
  | zero =>
    intro msgs tok reqs e ms tk rs h
    simp [page_loop] at h
  | succ f ih =>
    intro msgs tok reqs e ms tk rs h
    by_cases hlt : msgs.length < max_results
    · cases hc : provider query tok
          (min BATCH_SIZE (max_results - msgs.length)) with
      | error e2 =>
        simp only [page_batches, if_pos hlt, hc]
        simpa using hlt
      | ok result =>
        by_cases hemp : result.messages.isEmpty
        · simp [page_loop, if_pos hlt, hc, hemp] at h
        · cases ht : result.nextPageToken with
          | none =>
            simp [page_loop, if_pos hlt, hc, hemp, ht] at h
          | some t =>
            simp only [page_loop, if_pos hlt, hc, hemp, ht,
              Bool.false_eq_true, if_false] at h
            have := ih (msgs ++ result.messages) (some t) _ e ms tk rs h
            simp only [page_batches, if_pos hlt, hc, hemp, ht,
              Bool.false_eq_true, if_false]
            simp only [List.length_append] at this
            simp only [List.flatten_cons, List.length_append]
            omega
    · simp [page_loop, if_neg hlt] at h

/-- Every batch the page loop commits is committed while the number of
messages collected so far is below the bound. -/
theorem page_batches_take_lt (provider : Provider) (query : String)
    (max_results : Nat) :
    ∀ fuel (msgs : List String) (tok : Option String) (i : Nat),
      i < (page_batches provider query max_results fuel msgs tok).length →
      msgs.length +
        ((page_batches provider query max_results fuel msgs tok).take
          i).flatten.length < max_results := by
  intro fuel
  induction fuel with
  | zero =>
    intro msgs tok i hi
    simp [page_batches] at hi
  | succ f ih =>
    intro msgs tok i hi
    by_cases hlt : msgs.length < max_results
    · cases hc : provider query tok
          (min BATCH_SIZE (max_results - msgs.length)) with
      | error e =>
        rw [page_batches] at hi
        simp [if_pos hlt, hc] at hi
      | ok result =>
        by_cases hemp : result.messages.isEmpty
        · rw [page_batches] at hi
          simp [if_pos hlt, hc, hemp] at hi
        · cases ht : result.nextPageToken with
          | none =>
            simp only [page_batches, if_pos hlt, hc, hemp, ht,
              Bool.false_eq_true, if_false, List.length_cons,
              List.length_nil] at hi
            have hi0 : i = 0 := by omega
            subst hi0
            simp only [page_batches, if_pos hlt, hc, hemp, ht,
              Bool.false_eq_true, if_false, List.take_zero,
              List.flatten_nil, List.length_nil]
            omega
          | some t =>
            simp only [page_batches, if_pos hlt, hc, hemp, ht,
              Bool.false_eq_true, if_false, List.length_cons] at hi
            simp only [page_batches, if_pos hlt, hc, hemp, ht,
              Bool.false_eq_true, if_false]
            cases i with
            | zero =>
              simp only [List.take_zero, List.flatten_nil, List.length_nil]
              omega
            | succ j =>
              have := ih (msgs ++ result.messages) (some t) j (by omega)
              simp only [List.length_append] at this
              simp only [List.take_succ_cons, List.flatten_cons,
                List.length_append]
              omega
    · rw [page_batches] at hi
      simp [if_neg hlt] at hi

/-- The batches committed across the whole retry loop: the batches of the
current attempt, followed — when a transient failure triggers a retry — by
the batches of the later attempts, which resume from the reached
position. -/
def retry_batches (provider : Provider) (query : String) (max_results : Nat) :
    Nat → Nat → List String → Option String → List (Nat × Nat) →
      List (List String)
  | 0, _, _, _, _ => []
  | fuel + 1, attempt, msgs, tok, reqs =>
    match page_loop provider query max_results max_results msgs tok reqs with
    | .ok _ _ => page_batches provider query max_results max_results msgs tok
    | .err e msgs2 tok2 reqs2 =>
      page_batches provider query max_results max_results msgs tok ++
        match e with
        | .http s =>
          if transient_status s ∧ attempt < RETRIES - 1 then
            retry_batches provider query max_results fuel (attempt + 1) msgs2
              tok2 reqs2
          else []
        | .generic =>
          if attempt < RETRIES - 1 then
            retry_batches provider query max_results fuel (attempt + 1) msgs2
              tok2 reqs2
          else []

/-- A successful retry loop returns exactly the starting messages plus the
committed batches, truncated to the bound. -/
theorem retry_loop_ok_batches (provider : Provider) (query : String)
    (max_results : Nat) :
    ∀ fuel attempt msgs tok sleeps reqs l,
      (retry_loop provider query max_results fuel attempt msgs tok sleeps
          reqs).outcome = .ok l →
      l = (msgs ++
          (retry_batches provider query max_results fuel attempt msgs tok
            reqs).flatten).take max_results := by
  intro fuel
  induction fuel with
  | zero =>
    intro attempt msgs tok sleeps reqs l h
    simp only [retry_loop] at h
    rw [← (Except.ok.injEq _ _).mp h]
    simp [retry_batches]
  | succ f ih =>
    intro attempt msgs tok sleeps reqs l h
    cases hp : page_loop provider query max_results max_results msgs tok
        reqs with
    | ok ms rs =>
      simp only [retry_loop, hp] at h
      have hms : ms = msgs ++
          (page_batches provider query max_results max_results msgs
            tok).flatten := by
        have := page_loop_messages_eq provider query max_results max_results
          msgs tok reqs
        rwa [hp] at this
      rw [← (Except.ok.injEq _ _).mp h, hms]
      simp only [retry_batches, hp]
    | err e ms tk rs =>
      have hms : ms = msgs ++
          (page_batches provider query max_results max_results msgs
            tok).flatten := by
        have := page_loop_messages_eq provider query max_results max_results
          msgs tok reqs
        rwa [hp] at this
      cases e with
      | http s =>
        simp only [retry_loop, hp] at h
        by_cases hc : transient_status s ∧ attempt < RETRIES - 1
        · rw [if_pos hc] at h
          rw [ih _ _ _ _ _ _ h]
          simp only [retry_batches, hp, if_pos hc]
          rw [hms]
          simp [List.flatten_append, List.append_assoc]
        · rw [if_neg hc] at h
          exact absurd h (by simp)
      | generic =>
        simp only [retry_loop, hp] at h
        by_cases hc : attempt < RETRIES - 1
        · rw [if_pos hc] at h
          rw [ih _ _ _ _ _ _ h]
          simp only [retry_batches, hp, if_pos hc]
          rw [hms]
          simp [List.flatten_append, List.append_assoc]
        · rw [if_neg hc] at h
          exact absurd h (by simp)

/-- Every batch committed anywhere in the retry loop is committed while the
number of messages collected so far is below the bound. -/
theorem retry_batches_take_lt (provider : Provider) (query : String)
    (max_results : Nat) :
    ∀ fuel attempt (msgs : List String) (tok : Option String)
      (reqs : List (Nat × Nat)) (i : Nat),
      i < (retry_batches provider query max_results fuel attempt msgs tok
          reqs).length →
      msgs.length +
        ((retry_batches provider query max_results fuel attempt msgs tok
          reqs).take i).flatten.length < max_results := by
  intro fuel
  induction fuel with
  | zero =>
    intro attempt msgs tok reqs i hi
    simp [retry_batches] at hi
  | succ f ih =>
    intro attempt msgs tok reqs i hi
    cases hp : page_loop provider query max_results max_results msgs tok
        reqs with
    | ok ms rs =>
      simp only [retry_batches, hp] at hi ⊢
      exact page_batches_take_lt provider query max_results max_results msgs
        tok i hi
    | err e ms tk rs =>
      have hms : ms.length = msgs.length +
          (page_batches provider query max_results max_results msgs
            tok).flatten.length := by
        have := page_loop_messages_eq provider query max_results max_results
          msgs tok reqs
        rw [hp] at this
        rw [show (PageOutcome.err e ms tk rs).messages = ms from rfl] at this
        rw [this, List.length_append]
      have herr := page_loop_err_batches_lt provider query max_results
        max_results msgs tok reqs e ms tk rs hp
      have hgen : ∀ rest : List (List String),
          (∀ j : Nat, j < rest.length →
            ms.length + (rest.take j).flatten.length < max_results) →
          ∀ k : Nat,
            k < (page_batches provider query max_results max_results msgs tok
                ++ rest).length →
            msgs.length +
              ((page_batches provider query max_results max_results msgs tok
                ++ rest).take k).flatten.length < max_results := by
        intro rest hrest k hk
        by_cases hkle : k ≤ (page_batches provider query max_results
            max_results msgs tok).length
        · rw [List.take_append_eq_append_take,
            Nat.sub_eq_zero_of_le hkle, List.take_zero, List.append_nil]
          have hmono : ((page_batches provider query max_results max_results
              msgs tok).take k).flatten.length ≤
              (page_batches provider query max_results max_results msgs
                tok).flatten.length := by
            conv_rhs => rw [← List.take_append_drop k
              (page_batches provider query max_results max_results msgs tok)]
            rw [List.flatten_append, List.length_append]
            omega
          omega
        · rw [List.take_append_eq_append_take,
            List.take_of_length_le (by omega)]
          rw [List.flatten_append, List.length_append]
          have hj := hrest (k - (page_batches provider query max_results
              max_results msgs tok).length)
            (by rw [List.length_append] at hk; omega)
          omega
      cases e with
      | http s =>
        by_cases hc : transient_status s ∧ attempt < RETRIES - 1
        · simp only [retry_batches, hp, if_pos hc] at hi ⊢
          refine hgen _ (fun j hj => ?_) i hi
          have := ih (attempt + 1) ms tk rs j hj
          omega
        · simp only [retry_batches, hp, if_neg hc] at hi ⊢
          refine hgen [] (fun j hj => by simp at hj) i hi
      | generic =>
        by_cases hc : attempt < RETRIES - 1
        · simp only [retry_batches, hp, if_pos hc] at hi ⊢
          refine hgen _ (fun j hj => ?_) i hi
          have := ih (attempt + 1) ms tk rs j hj
          omega
        · simp only [retry_batches, hp, if_neg hc] at hi ⊢
          refine hgen [] (fun j hj => by simp at hj) i hi

/-- The batches committed by a whole `search_messages` call. -/
def search_batches (provider : Provider) (query : String)
    (max_results : Nat) : List (List String) :=
  retry_batches provider query max_results RETRIES 0 [] none []

/-- A nonempty list is its front followed by its last element. -/
theorem dropLast_append_getLastD {α : Type} :
    ∀ (l : List α) (d : α), l ≠ [] → l.dropLast ++ [l.getLastD d] = l := by
  intro l
  induction l with
  | nil =>
    intro d h
    exact absurd rfl h
  | cons x xs ih =>
    intro d _
    cases xs with
    | nil => simp
    | cons y ys =>
      have hy := ih x (by simp)
      rw [List.getLastD_cons]
      rw [show (x :: y :: ys).dropLast = x :: (y :: ys).dropLast from rfl]
      rw [List.cons_append, hy]

/-- If the provider call for the current position raises, one round of the
page loop stops at once, handing the collected messages and the current page
token to the exception handler, and records exactly one more page request. -/
theorem page_loop_err_of_fail (provider : Provider) (query : String)
    (max_results fuel : Nat) (msgs : List String) (tok : Option String)
    (reqs : List (Nat × Nat)) (e : ApiError)
    (hf : fuel ≠ 0) (hlt : msgs.length < max_results)
    (he : provider query tok (min BATCH_SIZE (max_results - msgs.length))
        = .error e) :
    page_loop provider query max_results fuel msgs tok reqs =
      .err e msgs tok
        (reqs ++ [(msgs.length, min BATCH_SIZE (max_results - msgs.length))]) := by
  cases fuel with
  | zero => exact absurd rfl hf
  | succ f => simp [page_loop, hlt, he]

/-- A transient `HttpError` with remaining attempt budget makes the retry
loop back off by `RETRY_DELAY * (attempt + 1)` and continue from the
messages and page token reached when the failure hit. -/
theorem retry_loop_step_transient (provider : Provider) (query : String)
    (max_results fuel attempt : Nat) (msgs : List String) (tok : Option String)
    (sleeps : List Nat) (reqs : List (Nat × Nat)) (s : Nat)
    (msgs2 : List String) (tok2 : Option String) (reqs2 : List (Nat × Nat))
    (hf : fuel ≠ 0) (ht : transient_status s = true)
    (ha : attempt < RETRIES - 1)
    (hp : page_loop provider query max_results max_results msgs tok reqs
        = .err (.http s) msgs2 tok2 reqs2) :
    retry_loop provider query max_results fuel attempt msgs tok sleeps reqs =
      retry_loop provider query max_results (fuel - 1) (attempt + 1) msgs2 tok2
        (sleeps ++ [RETRY_DELAY * (attempt + 1)]) reqs2 := by
  cases fuel with
  | zero => exact absurd rfl hf
  | succ f =>
    simp only [retry_loop, hp]
    rw [if_pos ⟨ht, ha⟩]
    simp

/-- An `HttpError` that is non-transient or hits the last attempt makes the
whole search raise. -/
theorem retry_loop_last_http (provider : Provider) (query : String)
    (max_results fuel attempt : Nat) (msgs : List String) (tok : Option String)
    (sleeps : List Nat) (reqs : List (Nat × Nat)) (s : Nat)
    (msgs2 : List String) (tok2 : Option String) (reqs2 : List (Nat × Nat))
    (hf : fuel ≠ 0)
    (hng : ¬ (transient_status s ∧ attempt < RETRIES - 1))
    (hp : page_loop provider query max_results max_results msgs tok reqs
        = .err (.http s) msgs2 tok2 reqs2) :
    retry_loop provider query max_results fuel attempt msgs tok sleeps reqs =
      ⟨.error (.http s), attempt + 1, sleeps, reqs2⟩ := by
  cases fuel with
  | zero => exact absurd rfl hf
  | succ f =>
    simp only [retry_loop, hp]
    rw [if_neg hng]

/-- Every page request recorded by the page loop asks for
`min BATCH_SIZE (max_results - collectedSoFar)` messages, issued while
`collectedSoFar < max_results`. -/
theorem page_loop_requests_inv (provider : Provider) (query : String)
    (max_results : Nat) :
    ∀ fuel (msgs : List String) (tok : Option String) (reqs : List (Nat × Nat)),
      (∀ p ∈ reqs,
        p.2 = min BATCH_SIZE (max_results - p.1) ∧ p.1 < max_results) →
      ∀ p ∈ (page_loop provider query max_results fuel msgs tok reqs).requests,
        p.2 = min BATCH_SIZE (max_results - p.1) ∧ p.1 < max_results := by
  intro fuel
  induction fuel with
  | zero =>
    intro msgs tok reqs hinv p hp
    simpa [page_loop, PageOutcome.requests] using hinv p hp
  | succ f ih =>
    intro msgs tok reqs hinv p hp
    by_cases hlt : msgs.length < max_results
    · have hinv2 : ∀ q ∈ reqs ++
          [(msgs.length, min BATCH_SIZE (max_results - msgs.length))],
          q.2 = min BATCH_SIZE (max_results - q.1) ∧ q.1 < max_results := by
        intro q hq
        rcases List.mem_append.mp hq with hq | hq
        · exact hinv q hq
        · rcases List.mem_singleton.mp hq with rfl
          exact ⟨rfl, hlt⟩
      cases hc : provider query tok (min BATCH_SIZE (max_results - msgs.length)) with
      | error e =>
        simp only [page_loop, if_pos hlt, hc, PageOutcome.requests] at hp
        exact hinv2 p hp
      | ok result =>
        by_cases hemp : result.messages.isEmpty
        · simp only [page_loop, if_pos hlt, hc, hemp, if_true,
            PageOutcome.requests] at hp
          exact hinv2 p hp
        · cases ht : result.nextPageToken with
          | none =>
            simp only [page_loop, if_pos hlt, hc, hemp, if_false, ht,
              PageOutcome.requests, Bool.false_eq_true] at hp
            exact hinv2 p hp
          | some t =>
            simp only [page_loop, if_pos hlt, hc, hemp, if_false, ht,
              Bool.false_eq_true] at hp
            exact ih _ _ _ hinv2 p hp
    · simp only [page_loop, if_neg hlt, PageOutcome.requests] at hp
      exact hinv p hp

/-- The request invariant carries through the retry loop. -/
theorem retry_loop_requests_inv (provider : Provider) (query : String)
    (max_results : Nat) :
    ∀ fuel attempt (msgs : List String) (tok : Option String)
      (sleeps : List Nat) (reqs : List (Nat × Nat)),
      (∀ p ∈ reqs,
        p.2 = min BATCH_SIZE (max_results - p.1) ∧ p.1 < max_results) →
      ∀ p ∈ (retry_loop provider query max_results fuel attempt msgs tok sleeps
          reqs).requests,
        p.2 = min BATCH_SIZE (max_results - p.1) ∧ p.1 < max_results := by
  intro fuel
  induction fuel with
  | zero =>
    intro attempt msgs tok sleeps reqs hinv p hp
    simpa [retry_loop] using hinv p hp
  | succ f ih =>
    intro attempt msgs tok sleeps reqs hinv p hp
    have hpage := page_loop_requests_inv provider query max_results max_results
      msgs tok reqs hinv
    cases hp2 : page_loop provider query max_results max_results msgs tok reqs with
    | ok ms rs =>
      simp only [retry_loop, hp2] at hp
      exact hpage p (by simpa [hp2, PageOutcome.requests] using hp)
    | err e ms tk rs =>
      have hrs : ∀ q ∈ rs,
          q.2 = min BATCH_SIZE (max_results - q.1) ∧ q.1 < max_results := by
        intro q hq
        exact hpage q (by simpa [hp2, PageOutcome.requests] using hq)
      cases e with
      | http s =>
        simp only [retry_loop, hp2] at hp
        by_cases hc : transient_status s ∧ attempt < RETRIES - 1
        · rw [if_pos hc] at hp
          exact ih _ _ _ _ _ hrs p hp
        · rw [if_neg hc] at hp
          exact hrs p hp
      | generic =>
        simp only [retry_loop, hp2] at hp
        by_cases hc : attempt < RETRIES - 1
        · rw [if_pos hc] at hp
          exact ih _ _ _ _ _ hrs p hp
        · rw [if_neg hc] at hp
          exact hrs p hp

/-! ### Claim C2 -/

/-- C2: for every provider behaviour, every query and every `maxResults`, a
successful `search_messages` returns at most `maxResults` entries, and the
returned list is determined by the pages the provider actually served:
it is the `take maxResults` of the concatenation of the committed page
batches of this very run (`search_batches`); every batch was committed
while fewer than `maxResults` messages had been collected; and when at
least one page was committed the result is exactly all earlier pages in
full followed by the final page truncated to the remaining budget — the
final page's excess is dropped, never earlier results. -/
theorem c2_pagination_bound (provider : Provider) (query : String)
    (max_results : Nat) (l : List String)
    (h : (search_messages provider query max_results).outcome = .ok l) :
    l.length ≤ max_results ∧
      l = (search_batches provider query max_results).flatten.take
        max_results ∧
      (∀ i < (search_batches provider query max_results).length,
        ((search_batches provider query max_results).take i).flatten.length
          < max_results) ∧
      (search_batches provider query max_results ≠ [] →
        l = (search_batches provider query max_results).dropLast.flatten ++
          ((search_batches provider query max_results).getLastD []).take
            (max_results -
              (search_batches provider query
                max_results).dropLast.flatten.length)) := by
  have hsb : search_batches provider query max_results
      = retry_batches provider query max_results RETRIES 0 [] none [] := rfl
  have hl := retry_loop_ok_batches provider query max_results RETRIES 0 []
    none [] [] l h
  rw [List.nil_append, ← hsb] at hl
  have hinv : ∀ i < (search_batches provider query max_results).length,
      ((search_batches provider query max_results).take i).flatten.length
        < max_results := by
    intro i hi
    rw [hsb] at hi ⊢
    have := retry_batches_take_lt provider query max_results RETRIES 0 []
      none [] i hi
    simpa using this
  refine ⟨?_, hl, hinv, ?_⟩
  · rw [hl]
    exact List.length_take_le _ _
  · intro hne
    have hpos : 0 < (search_batches provider query max_results).length :=
      List.length_pos.mpr hne
    have hlast := hinv ((search_batches provider query max_results).length
      - 1) (by omega)
    rw [← List.dropLast_eq_take] at hlast
    have hsplit : (search_batches provider query max_results).dropLast ++
        [(search_batches provider query max_results).getLastD []]
        = search_batches provider query max_results :=
      dropLast_append_getLastD _ [] hne
    calc l
        = (search_batches provider query max_results).flatten.take
            max_results := hl
      _ = ((search_batches provider query max_results).dropLast ++
            [(search_batches provider query max_results).getLastD
              []]).flatten.take max_results := by rw [hsplit]
      _ = ((search_batches provider query max_results).dropLast.flatten ++
            (search_batches provider query max_results).getLastD []).take
              max_results := by
            rw [List.flatten_append]
            simp
      _ = (search_batches provider query max_results).dropLast.flatten ++
            ((search_batches provider query max_results).getLastD []).take
              (max_results - (search_batches provider query
                max_results).dropLast.flatten.length) := by
            rw [List.take_append_eq_append_take,
              List.take_of_length_le (le_of_lt hlast)]

/-- C2 witness: a provider whose single page holds three messages, searched
with `maxResults = 2`, returns exactly two messages: the take-2 of the one
committed batch, i.e. that final batch truncated to the budget. -/
theorem c2_pagination_bound_witness :
    (search_messages three_msg_provider "q" 2).outcome = .ok ["a", "b"] ∧
      (["a", "b"] : List String).length ≤ 2 ∧
      ["a", "b"]
        = (search_batches three_msg_provider "q" 2).flatten.take 2 ∧
      ["a", "b"]
        = (search_batches three_msg_provider "q" 2).dropLast.flatten ++
          ((search_batches three_msg_provider "q" 2).getLastD []).take
            (2 - (search_batches three_msg_provider
              "q" 2).dropLast.flatten.length) :=
  ⟨rfl, (c2_pagination_bound three_msg_provider "q" 2 ["a", "b"] rfl).1,
    (c2_pagination_bound three_msg_provider "q" 2 ["a", "b"] rfl).2.1,
    (c2_pagination_bound three_msg_provider "q" 2 ["a", "b"] rfl).2.2.2
      (by decide)⟩

/-! ### Claim C3 -/

/-- C3 (amended): the statuses `search_messages` retries are exactly 429,
500 and 503.  First conjunct: if every page request fails with one of those
statuses, the search raises (never returns a partial list), uses exactly 3
attempts, and sleeps `RETRY_DELAY * 1` then `RETRY_DELAY * 2` before the two
retries.  Second conjunct: a retryable failure with remaining attempt budget
resumes from the pagination position reached when the failure hit — the
already-collected messages and the current page token — after backing off by
`RETRY_DELAY * attemptNumber`. -/
theorem c3_retry_exhaustion_and_resume :
    (∀ (provider : Provider) (query : String) (max_results : Nat),
      0 < max_results →
      (∀ (tok : Option String) (b : Nat), ∃ s : Nat,
        provider query tok b = .error (.http s) ∧ transient_status s = true) →
      (∃ s : Nat,
        (search_messages provider query max_results).outcome
            = .error (.http s) ∧ transient_status s = true) ∧
      (search_messages provider query max_results).attempts = 3 ∧
      (search_messages provider query max_results).sleeps
          = [RETRY_DELAY * 1, RETRY_DELAY * 2]) ∧
    (∀ (provider : Provider) (query : String)
      (max_results fuel attempt : Nat) (msgs : List String)
      (tok : Option String) (sleeps : List Nat) (reqs : List (Nat × Nat))
      (s : Nat) (msgs2 : List String) (tok2 : Option String)
      (reqs2 : List (Nat × Nat)),
      fuel ≠ 0 → transient_status s = true → attempt < RETRIES - 1 →
      page_loop provider query max_results max_results msgs tok reqs
          = .err (.http s) msgs2 tok2 reqs2 →
      retry_loop provider query max_results fuel attempt msgs tok sleeps reqs =
        retry_loop provider query max_results (fuel - 1) (attempt + 1) msgs2
          tok2 (sleeps ++ [RETRY_DELAY * (attempt + 1)]) reqs2) := by
  constructor
  · intro provider query m hm hfail
    have hlt : ([] : List String).length < m := by simpa using hm
    obtain ⟨s1, hs1, ht1⟩ := hfail none (min BATCH_SIZE (m - 0))
    obtain ⟨s2, hs2, ht2⟩ := hfail none (min BATCH_SIZE (m - 0))
    obtain ⟨s3, hs3, ht3⟩ := hfail none (min BATCH_SIZE (m - 0))
    have hp1 : page_loop provider query m m [] none []
        = .err (.http s1) [] none [(0, min BATCH_SIZE (m - 0))] := by
      simpa using page_loop_err_of_fail provider query m m [] none []
        (.http s1) (by omega) hlt (by simpa using hs1)
    have hp2 : page_loop provider query m m [] none
          [(0, min BATCH_SIZE (m - 0))]
        = .err (.http s2) [] none
            [(0, min BATCH_SIZE (m - 0)), (0, min BATCH_SIZE (m - 0))] := by
      simpa using page_loop_err_of_fail provider query m m [] none
        [(0, min BATCH_SIZE (m - 0))] (.http s2) (by omega) hlt
        (by simpa using hs2)
    have hp3 : page_loop provider query m m [] none
          [(0, min BATCH_SIZE (m - 0)), (0, min BATCH_SIZE (m - 0))]
        = .err (.http s3) [] none
            [(0, min BATCH_SIZE (m - 0)), (0, min BATCH_SIZE (m - 0)),
              (0, min BATCH_SIZE (m - 0))] := by
      simpa using page_loop_err_of_fail provider query m m [] none
        [(0, min BATCH_SIZE (m - 0)), (0, min BATCH_SIZE (m - 0))]
        (.http s3) (by omega) hlt (by simpa using hs3)
    have step1 := retry_loop_step_transient provider query m RETRIES 0 [] none
      [] [] s1 [] none [(0, min BATCH_SIZE (m - 0))]
      (by simp [RETRIES]) ht1 (by simp [RETRIES]) hp1
    have step2 := retry_loop_step_transient provider query m (RETRIES - 1) 1 []
      none [RETRY_DELAY * (0 + 1)] [(0, min BATCH_SIZE (m - 0))] s2 [] none
      [(0, min BATCH_SIZE (m - 0)), (0, min BATCH_SIZE (m - 0))]
      (by simp [RETRIES]) ht2 (by simp [RETRIES]) hp2
    have step3 := retry_loop_last_http provider query m (RETRIES - 1 - 1) 2 []
      none [RETRY_DELAY * (0 + 1), RETRY_DELAY * (1 + 1)]
      [(0, min BATCH_SIZE (m - 0)), (0, min BATCH_SIZE (m - 0))] s3 [] none
      [(0, min BATCH_SIZE (m - 0)), (0, min BATCH_SIZE (m - 0)),
        (0, min BATCH_SIZE (m - 0))]
      (by simp [RETRIES]) (by simp [RETRIES]) hp3
    have hall : search_messages provider query m
        = ⟨.error (.http s3), 3,
            [RETRY_DELAY * 1, RETRY_DELAY * 2],
            [(0, min BATCH_SIZE (m - 0)), (0, min BATCH_SIZE (m - 0)),
              (0, min BATCH_SIZE (m - 0))]⟩ := by
      calc search_messages provider query m
          = retry_loop provider query m RETRIES 0 [] none [] [] := rfl
        _ = retry_loop provider query m (RETRIES - 1) 1 [] none
              [RETRY_DELAY * (0 + 1)] [(0, min BATCH_SIZE (m - 0))] := by
              simpa using step1
        _ = retry_loop provider query m (RETRIES - 1 - 1) 2 [] none
              [RETRY_DELAY * (0 + 1), RETRY_DELAY * (1 + 1)]
              [(0, min BATCH_SIZE (m - 0)), (0, min BATCH_SIZE (m - 0))] := by
              simpa using step2
        _ = _ := by simpa using step3
    refine ⟨⟨s3, ?_, ht3⟩, ?_, ?_⟩ <;> rw [hall]
  · intro provider query m fuel attempt msgs tok sleeps reqs s msgs2 tok2 reqs2
      hf ht ha hp
    exact retry_loop_step_transient provider query m fuel attempt msgs tok
      sleeps reqs s msgs2 tok2 reqs2 hf ht ha hp

/-- C3 witness: with a provider that always answers 429 and
`maxResults = 5`, the search raises a 429 after exactly 3 attempts, sleeping
2 then 4 seconds. -/
theorem c3_retry_exhaustion_and_resume_witness :
    (∃ s : Nat, (search_messages always_429_provider "q" 5).outcome
        = .error (.http s) ∧ transient_status s = true) ∧
      (search_messages always_429_provider "q" 5).attempts = 3 ∧
      (search_messages always_429_provider "q" 5).sleeps
          = [RETRY_DELAY * 1, RETRY_DELAY * 2] :=
  c3_retry_exhaustion_and_resume.1 always_429_provider "q" 5 (by decide)
    (fun _ _ => ⟨429, rfl, by decide⟩)

/-- C3 counterexample: HTTP 502 is a 5xx-class status, so under the claim as
stated every page request failing with 502 should lead to 3 attempts with
backoff; the code instead re-raises immediately — one attempt, no sleeps. -/
theorem c3_5xx_not_retried_counterexample :
    (search_messages always_502_provider "q" 5).outcome
        = .error (.http 502) ∧
      (search_messages always_502_provider "q" 5).attempts = 1 ∧
      (search_messages always_502_provider "q" 5).attempts ≠ 3 ∧
      (search_messages always_502_provider "q" 5).sleeps = [] :=
  ⟨rfl, rfl, by decide, rfl⟩

/-! ### Claim C8 -/

/-- C8 (amended): `search_messages` paginates with page size
`min 25 (maxResults - collectedSoFar)` — capped by the fixed batch size 25
but shrunk near the bound — and every page request is issued while fewer
than `maxResults` messages have been collected.  The remaining conjuncts
state the stop conditions of one loop round: if the bound is already
reached no request is made; a page with zero results stops the loop; a page
without a continuation token stops the loop after committing its results. -/
theorem c8_page_size_and_stop_conditions :
    (∀ (provider : Provider) (query : String) (max_results : Nat)
      (p : Nat × Nat),
      p ∈ (search_messages provider query max_results).requests →
      p.2 = min BATCH_SIZE (max_results - p.1) ∧ p.1 < max_results) ∧
    (∀ (provider : Provider) (query : String) (max_results fuel : Nat)
      (msgs : List String) (tok : Option String) (reqs : List (Nat × Nat)),
      ¬ msgs.length < max_results →
      page_loop provider query max_results fuel msgs tok reqs = .ok msgs reqs) ∧
    (∀ (provider : Provider) (query : String) (max_results fuel : Nat)
      (msgs : List String) (tok : Option String) (reqs : List (Nat × Nat))
      (t : Option String),
      fuel ≠ 0 → msgs.length < max_results →
      provider query tok (min BATCH_SIZE (max_results - msgs.length))
          = .ok ⟨[], t⟩ →
      page_loop provider query max_results fuel msgs tok reqs =
        .ok msgs
          (reqs ++ [(msgs.length,
            min BATCH_SIZE (max_results - msgs.length))])) ∧
    (∀ (provider : Provider) (query : String) (max_results fuel : Nat)
      (msgs : List String) (tok : Option String) (reqs : List (Nat × Nat))
      (ms : List String),
      fuel ≠ 0 → msgs.length < max_results → ms ≠ [] →
      provider query tok (min BATCH_SIZE (max_results - msgs.length))
          = .ok ⟨ms, none⟩ →
      page_loop provider query max_results fuel msgs tok reqs =
        .ok (msgs ++ ms)
          (reqs ++ [(msgs.length,
            min BATCH_SIZE (max_results - msgs.length))])) := by
  refine ⟨?_, ?_, ?_, ?_⟩
  · intro provider query max_results p hp
    exact retry_loop_requests_inv provider query max_results RETRIES 0 [] none
      [] [] (by simp) p hp
  · intro provider query max_results fuel msgs tok reqs hge
    cases fuel with
    | zero => simp [page_loop]
    | succ f => simp [page_loop, hge]
  · intro provider query max_results fuel msgs tok reqs t hf hlt hc
    cases fuel with
    | zero => exact absurd rfl hf
    | succ f => simp [page_loop, hlt, hc]
  · intro provider query max_results fuel msgs tok reqs ms hf hlt hne hc
    cases fuel with
    | zero => exact absurd rfl hf
    | succ f => simp [page_loop, hlt, hc, hne]

/-- C8 witness: searching ten messages from a provider that serves one
message per page issues a first page request of size `min 25 10 = 10` at
position 0, within the bound. -/
theorem c8_page_size_and_stop_conditions_witness :
    ((0 : Nat), (10 : Nat)) ∈ (search_messages one_msg_provider "q" 10).requests
      ∧ (10 : Nat) = min BATCH_SIZE (10 - 0) ∧ (0 : Nat) < 10 :=
  ⟨by decide,
    (c8_page_size_and_stop_conditions.1 one_msg_provider "q" 10 (0, 10)
      (by decide)).1,
    (c8_page_size_and_stop_conditions.1 one_msg_provider "q" 10 (0, 10)
      (by decide)).2⟩

/-- C8 counterexample: with `maxResults = 10` the page requests ask for
10, 9, …, 1 messages — not every page request asks the provider for exactly
25 results. -/
theorem c8_fixed_page_size_counterexample :
    ¬ ∀ p ∈ (search_messages one_msg_provider "q" 10).requests,
        p.2 = BATCH_SIZE := by
  decide

/-! ### Python string primitives on char lists

Python strings are embedded as `List Char`; `str.split(sep)`, `sep.join`,
`str.strip()` and slicing become the functions below. -/

/-- `str.split(sep)` for a one-character separator: splits at every
occurrence, keeping empty pieces, and always returns at least one piece. -/
def split_on (sep : Char) : List Char → List (List Char)
  | [] => [[]]
  | c :: rest =>
    let r := split_on sep rest
    if c = sep then [] :: r
    else (c :: r.headD []) :: r.tail

/-- `sep.join(pieces)` for a one-character separator. -/
def join_on (sep : Char) : List (List Char) → List Char
  | [] => []
  | [x] => x
  | x :: y :: xs => x ++ sep :: join_on sep (y :: xs)

/-- The whitespace characters removed by Python's `str.strip()`. -/
def is_py_space (c : Char) : Bool :=
  c == ' ' || c == '\t' || c == '\n' || c == '\r' ||
    c == Char.ofNat 11 || c == Char.ofNat 12

/-- `str.strip()`. -/
def strip_chars (l : List Char) : List Char :=
  ((l.dropWhile is_py_space).reverse.dropWhile is_py_space).reverse

/-! ### attachment_handler.sanitize_filename -/

/-- The characters replaced by `re.sub(r'[<>:"/\\|?*]', '_', filename)`. -/
def invalid_char (c : Char) : Bool :=
  ['<', '>', ':', '"', '/', '\\', '|', '?', '*'].contains c

/-- The regex substitution step of `sanitize_filename`. -/
def clean_chars (l : List Char) : List Char :=
  l.map (fun c => if invalid_char c then '_' else c)

/-- `sanitize_filename` (attachment_handler.py lines 11-24) on char lists:
replace invalid characters by `_`; if the result is longer than 100, split
on `.`; with at least two pieces, keep the first 95 characters of the
dot-joined initial pieces and append `_` and the last piece; otherwise keep
the first 100 characters. -/
def sanitize_chars (l : List Char) : List Char :=
  let cleaned := clean_chars l
  if cleaned.length > 100 then
    let name_parts := split_on '.' cleaned
    if name_parts.length > 1 then
      let extension := name_parts.getLastD []
      let base_name := join_on '.' name_parts.dropLast
      base_name.take 95 ++ '_' :: extension
    else
      cleaned.take 100
  else
    cleaned

/-- `sanitize_filename` on Lean strings. -/
def sanitize_filename (s : String) : String :=
  String.mk (sanitize_chars s.data)

/-! ### attachment_handler.classify_extension -/

/-- The extension classification table (attachment_handler.py lines 34-68). -/
def type_map : List (String × String) :=
  [("pdf", "PDFs"),
   ("doc", "Documents"), ("docx", "Documents"), ("rtf", "Documents"),
   ("txt", "Documents"), ("odt", "Documents"),
   ("xls", "Spreadsheets"), ("xlsx", "Spreadsheets"), ("csv", "Spreadsheets"),
   ("ods", "Spreadsheets"), ("numbers", "Spreadsheets"),
   ("jpg", "Images"), ("jpeg", "Images"), ("png", "Images"), ("gif", "Images"),
   ("bmp", "Images"), ("tiff", "Images"), ("webp", "Images"), ("svg", "Images"),
   ("ppt", "Presentations"), ("pptx", "Presentations"),
   ("key", "Presentations"), ("odp", "Presentations"),
   ("zip", "Archives"), ("rar", "Archives"), ("7z", "Archives"),
   ("tar", "Archives"), ("gz", "Archives"),
   ("mp3", "Audio"), ("wav", "Audio"), ("ogg", "Audio"), ("flac", "Audio"),
   ("m4a", "Audio"), ("aac", "Audio"),
   ("mp4", "Video"), ("avi", "Video"), ("mov", "Video"), ("mkv", "Video"),
   ("wmv", "Video"), ("webm", "Video"),
   ("py", "Code"), ("js", "Code"), ("html", "Code"), ("css", "Code"),
   ("java", "Code"), ("cpp", "Code"), ("c", "Code"), ("php", "Code"),
   ("json", "Code"), ("xml", "Code")]

/-- `classify_extension` (attachment_handler.py lines 26-70): empty or
extension-less filenames classify as Other; otherwise the lower-cased last
dot-separated piece is looked up in the table, defaulting to Other. -/
def classify_ext_chars (filename : List Char) : String :=
  if filename = [] ∨ ¬ '.' ∈ filename then "Other"
  else
    let ext := String.mk (((split_on '.' filename).getLastD []).map Char.toLower)
    ((type_map.lookup ext).getD "Other")

/-! ### attachment_handler.save_attachment folder/path composition -/

/-- `header.split("<")[1].split(">")[0].strip()`: the bracketed address of
a `Name <email>` header. -/
def py_angle_email (l : List Char) : List Char :=
  strip_chars ((split_on '>' ((split_on '<' l).getD 1 [])).getD 0 [])

/-- The sender-folder cleanup of `save_attachment` (lines 92-95): take the
bracketed address when the header has one, else the trimmed header. -/
def clean_sender_chars (sender_email : List Char) : List Char :=
  if '<' ∈ sender_email ∧ '>' ∈ sender_email then
    py_angle_email sender_email
  else
    strip_chars sender_email

/-- `os.path.join` with POSIX separators: an absolute component restarts the
path; otherwise a `/` is inserted unless the path so far is empty or already
ends with `/`. -/
def os_path_join_step (path p : List Char) : List Char :=
  if p.headD ' ' = '/' then p
  else if path = [] ∨ path.getLastD ' ' = '/' then path ++ p
  else path ++ '/' :: p

/-- `os.path.join(first, *rest)`. -/
def os_path_join : List (List Char) → List Char
  | [] => []
  | x :: xs => xs.foldl os_path_join_step x

/-- The unique filename of `save_attachment` (lines 82-85):
`f"{timestamp}_{unique_id}_{original_name}"`; the timestamp
(`datetime.now().strftime("%Y%m%d-%H%M%S")`) and the six-character
`uuid.uuid4().hex[:6]` are explicit inputs. -/
def unique_filename (timestamp unique_id original_name : List Char) :
    List Char :=
  timestamp ++ '_' :: unique_id ++ '_' :: original_name

/-- The `relative_path` composed by `save_attachment` (lines 87-103):
`sanitize(cleanSender)/sanitize(searchFolder)/fileType/uniqueFilename`,
where the search folder falls back to `all-attachments` when the stripped
search term is empty. -/
def relative_path (timestamp unique_id : List Char)
    (part_filename sender_email search_term : List Char) : List Char :=
  let original_name := sanitize_chars part_filename
  let filename := unique_filename timestamp unique_id original_name
  let file_type := (classify_ext_chars original_name).data
  let search_folder :=
    if strip_chars search_term ≠ [] then strip_chars search_term
    else "all-attachments".data
  os_path_join
    [sanitize_chars (clean_sender_chars sender_email),
     sanitize_chars search_folder, file_type, filename]

/-! ### Lemmas about the string primitives -/

/-- `str.split` never returns an empty list of pieces. -/
theorem split_on_ne_nil (sep : Char) (l : List Char) : split_on sep l ≠ [] := by
  cases l with
  | nil => simp [split_on]
  | cons c rest => by_cases hc : c = sep <;> simp [split_on, hc]

/-- Splitting a string that starts with the separator. -/
theorem split_on_cons_self (sep : Char) (rest : List Char) :
    split_on sep (sep :: rest) = [] :: split_on sep rest := by
  simp [split_on]

/-- Splitting a string that starts with a non-separator character. -/
theorem split_on_cons_ne (sep c : Char) (rest : List Char) (h : c ≠ sep) :
    split_on sep (c :: rest) =
      (c :: (split_on sep rest).headD []) :: (split_on sep rest).tail := by
  simp [split_on, h]

/-- Characters of any piece of `str.split` come from the split string. -/
theorem mem_of_mem_split_on (sep : Char) :
    ∀ (l p : List Char), p ∈ split_on sep l → ∀ c ∈ p, c ∈ l := by
  intro l
  induction l with
  | nil =>
    intro p hp c hc
    simp [split_on] at hp
    subst hp
    simp at hc
  | cons a rest ih =>
    intro p hp c hc
    by_cases ha : a = sep
    · subst ha
      rw [split_on_cons_self] at hp
      rcases List.mem_cons.mp hp with rfl | hp
      · simp at hc
      · exact List.mem_cons_of_mem _ (ih p hp c hc)
    · cases hr : split_on sep rest with
      | nil => exact absurd hr (split_on_ne_nil sep rest)
      | cons h t =>
        rw [split_on_cons_ne sep a rest ha, hr] at hp
        simp only [List.headD_cons, List.tail_cons, List.mem_cons] at hp
        rcases hp with rfl | hp
        · rcases List.mem_cons.mp hc with rfl | hc2
          · exact List.mem_cons_self _ _
          · have hh : h ∈ split_on sep rest := by
              rw [hr]; exact List.mem_cons_self _ _
            exact List.mem_cons_of_mem _ (ih h hh c hc2)
        · have hpt : p ∈ split_on sep rest := by
            rw [hr]; exact List.mem_cons_of_mem _ hp
          exact List.mem_cons_of_mem _ (ih p hpt c hc)

/-- Characters of `sep.join(pieces)` are the separator or come from a
piece. -/
theorem mem_join_on (sep : Char) :
    ∀ (ps : List (List Char)) (c : Char), c ∈ join_on sep ps →
      c = sep ∨ ∃ p ∈ ps, c ∈ p := by
  intro ps
  induction ps with
  | nil =>
    intro c hc
    simp [join_on] at hc
  | cons x xs ih =>
    intro c hc
    cases xs with
    | nil =>
      simp only [join_on] at hc
      exact .inr ⟨x, by simp, hc⟩
    | cons y ys =>
      simp only [join_on, List.mem_append, List.mem_cons] at hc
      rcases hc with hc | hc | hc
      · exact .inr ⟨x, by simp, hc⟩
      · exact .inl hc
      · rcases ih c hc with hs | ⟨p, hp, hcp⟩
        · exact .inl hs
        · exact .inr ⟨p, List.mem_cons_of_mem _ hp, hcp⟩

/-- `str.split` produces more than one piece exactly when the separator
occurs. -/
theorem split_on_length_iff (sep : Char) :
    ∀ l : List Char, 1 < (split_on sep l).length ↔ sep ∈ l := by
  intro l
  induction l with
  | nil => simp [split_on]
  | cons c rest ih =>
    by_cases hc : c = sep
    · subst hc
      have h1 : 0 < (split_on c rest).length :=
        List.length_pos.mpr (split_on_ne_nil c rest)
      rw [split_on_cons_self]
      simp only [List.length_cons]
      constructor
      · intro _
        exact List.mem_cons_self c rest
      · intro _
        omega
    · cases hr : split_on sep rest with
      | nil => exact absurd hr (split_on_ne_nil sep rest)
      | cons h t =>
        rw [hr] at ih
        simp only [List.length_cons] at ih
        rw [split_on_cons_ne sep c rest hc, hr]
        simp only [List.headD_cons, List.tail_cons, List.length_cons,
          List.mem_cons]
        constructor
        · intro hlen
          exact .inr (ih.mp hlen)
        · intro hmem
          rcases hmem with rfl | hmem
          · exact absurd rfl hc
          · exact ih.mpr hmem

/-- The last element of a nonempty list belongs to it. -/
theorem mem_getLastD {α : Type} :
    ∀ (l : List α) (d : α), l ≠ [] → l.getLastD d ∈ l := by
  intro l
  induction l with
  | nil =>
    intro d h
    exact absurd rfl h
  | cons x xs ih =>
    intro d _
    cases xs with
    | nil => simp
    | cons y ys =>
      have hy := ih x (by simp)
      rw [List.getLastD_cons]
      exact List.mem_cons_of_mem _ hy

/-- The regex substitution leaves no invalid character behind. -/
theorem clean_chars_not_invalid (l : List Char) :
    ∀ c ∈ clean_chars l, invalid_char c = false := by
  intro c hc
  simp only [clean_chars, List.mem_map] at hc
  obtain ⟨a, _, rfl⟩ := hc
  by_cases h : invalid_char a
  · rw [if_pos h]
    decide
  · rw [if_neg h]
    simpa using h

/-- The regex substitution fixes strings without invalid characters. -/
theorem clean_chars_fixed :
    ∀ l : List Char, (∀ c ∈ l, invalid_char c = false) → clean_chars l = l := by
  intro l
  induction l with
  | nil =>
    intro _
    rfl
  | cons a rest ih =>
    intro h
    have ha := h a (List.mem_cons_self a rest)
    have ih2 := ih fun c hc => h c (List.mem_cons_of_mem a hc)
    simp only [clean_chars, List.map_cons] at ih2 ⊢
    rw [ih2, if_neg (by simp [ha])]

/-- `sanitize_filename` fixes already-clean names of length at most 100. -/
theorem sanitize_chars_fixed (m : List Char)
    (hchars : ∀ c ∈ m, invalid_char c = false) (hlen : m.length ≤ 100) :
    sanitize_chars m = m := by
  have hc := clean_chars_fixed m hchars
  simp only [sanitize_chars, hc]
  rw [if_neg (by omega)]

/-- Main sanitization lemma: whenever the cleaned name fits in 100
characters, has no dot, or has an extension of at most 4 characters, the
result of `sanitize_chars` is a fixed point of `sanitize_chars` and fits in
100 characters. -/
theorem sanitize_chars_good (l : List Char)
    (h : (clean_chars l).length ≤ 100 ∨ ¬ '.' ∈ clean_chars l ∨
      ((split_on '.' (clean_chars l)).getLastD []).length ≤ 4) :
    sanitize_chars (sanitize_chars l) = sanitize_chars l ∧
      (sanitize_chars l).length ≤ 100 := by
  by_cases h100 : (clean_chars l).length > 100
  · by_cases hgt : 1 < (split_on '.' (clean_chars l)).length
    · -- reattachment branch: base.take 95 ++ '_' :: extension
      have hext : ((split_on '.' (clean_chars l)).getLastD []).length ≤ 4 := by
        rcases h with h | hdot | hext
        · omega
        · exact absurd ((split_on_length_iff '.' (clean_chars l)).mp hgt) hdot
        · exact hext
      have hout : sanitize_chars l =
          (join_on '.' (split_on '.' (clean_chars l)).dropLast).take 95 ++
            '_' :: (split_on '.' (clean_chars l)).getLastD [] := by
        simp only [sanitize_chars]
        rw [if_pos h100, if_pos hgt]
      have hlenout : (sanitize_chars l).length ≤ 100 := by
        rw [hout]
        simp only [List.length_append, List.length_take, List.length_cons]
        have := min_le_left 95
          (join_on '.' (split_on '.' (clean_chars l)).dropLast).length
        omega
      refine ⟨?_, hlenout⟩
      have hchars : ∀ c ∈ sanitize_chars l, invalid_char c = false := by
        rw [hout]
        intro c hc
        rcases List.mem_append.mp hc with hc | hc
        · have hcb := List.take_subset 95 _ hc
          rcases mem_join_on '.' _ c hcb with rfl | ⟨p, hp, hcp⟩
          · decide
          · have hpp := List.dropLast_subset _ hp
            exact clean_chars_not_invalid l c
              (mem_of_mem_split_on '.' (clean_chars l) p hpp c hcp)
        · rcases List.mem_cons.mp hc with rfl | hc2
          · decide
          · have hlast := mem_getLastD (split_on '.' (clean_chars l)) []
              (split_on_ne_nil '.' (clean_chars l))
            exact clean_chars_not_invalid l c
              (mem_of_mem_split_on '.' (clean_chars l) _ hlast c hc2)
      exact sanitize_chars_fixed _ hchars hlenout
    · -- hard-truncation branch: take 100
      have hout : sanitize_chars l = (clean_chars l).take 100 := by
        simp only [sanitize_chars]
        rw [if_pos h100, if_neg hgt]
      have hlenout : (sanitize_chars l).length ≤ 100 := by
        rw [hout, List.length_take]
        omega
      refine ⟨?_, hlenout⟩
      have hchars : ∀ c ∈ sanitize_chars l, invalid_char c = false := by
        rw [hout]
        intro c hc
        exact clean_chars_not_invalid l c (List.take_subset 100 _ hc)
      exact sanitize_chars_fixed _ hchars hlenout
  · -- the cleaned name already fits
    have hout : sanitize_chars l = clean_chars l := by
      simp only [sanitize_chars]
      rw [if_neg h100]
    have hlenout : (sanitize_chars l).length ≤ 100 := by
      rw [hout]; omega
    refine ⟨?_, hlenout⟩
    have hchars : ∀ c ∈ sanitize_chars l, invalid_char c = false := by
      rw [hout]
      exact clean_chars_not_invalid l
    exact sanitize_chars_fixed _ hchars hlenout

/-! ### Claim C4 -/

/-- A filename whose cleaned form is 101 characters with a 5-character
extension: 95 `x`s, a dot, then `abcde`. -/
def long_ext_name : String :=
  String.mk (List.replicate 95 'x' ++ ".abcde".data)

/-- C4 (amended): `sanitize_filename` is idempotent with output length at
most 100 for every input whose cleaned form fits in 100 characters, has no
dot, or has an extension (the part after the last dot) of at most 4
characters.  In general the truncation branch emits
`base[:95] + "_" + extension` whole, so a long extension drives the output
over 100 characters and breaks idempotence. -/
theorem c4_sanitize_idempotent_bounded (s : String)
    (h : (clean_chars s.data).length ≤ 100 ∨ ¬ '.' ∈ clean_chars s.data ∨
      ((split_on '.' (clean_chars s.data)).getLastD []).length ≤ 4) :
    sanitize_filename (sanitize_filename s) = sanitize_filename s ∧
      (sanitize_filename s).length ≤ 100 := by
  obtain ⟨hidem, hlen⟩ := sanitize_chars_good s.data h
  exact ⟨congrArg String.mk hidem, hlen⟩

/-- C4 witness: a short name with one invalid character and a short
extension is sanitized idempotently within the length bound. -/
theorem c4_sanitize_idempotent_bounded_witness :
    ((clean_chars "a<b.pdf".data).length ≤ 100 ∨
      ¬ '.' ∈ clean_chars "a<b.pdf".data ∨
      ((split_on '.' (clean_chars "a<b.pdf".data)).getLastD []).length ≤ 4) ∧
    sanitize_filename (sanitize_filename "a<b.pdf")
        = sanitize_filename "a<b.pdf" ∧
      (sanitize_filename "a<b.pdf").length ≤ 100 :=
  ⟨Or.inl (by decide), c4_sanitize_idempotent_bounded "a<b.pdf"
    (Or.inl (by decide))⟩

/-- C4 counterexample: sanitizing `"x" * 95 + ".abcde"` yields
`"x" * 95 + "_abcde"` — 101 characters, over the claimed bound — and
sanitizing again hard-truncates it to 100 characters, so the function is
not idempotent there either. -/
theorem c4_long_extension_counterexample :
    (sanitize_filename long_ext_name).length > 100 ∧
      sanitize_filename (sanitize_filename long_ext_name)
        ≠ sanitize_filename long_ext_name := by
  constructor
  · decide
  · decide

/-! ### Claim C5 -/

/-- The unique filename starts with the timestamp's first character, which
for a `%Y%m%d-%H%M%S` timestamp is never a path separator. -/
theorem unique_filename_head_ne (t u n : List Char) (ht : t.length = 15)
    (hs : ¬ '/' ∈ t) : (unique_filename t u n).headD ' ' ≠ '/' := by
  cases t with
  | nil => simp at ht
  | cons c t' =>
    intro hh
    simp only [unique_filename, List.cons_append, List.headD_cons] at hh
    exact hs (hh ▸ List.mem_cons_self c t')

/-- The unique filename determines the timestamp and random component: the
timestamp always has 15 characters and the uuid slice 6, so equal filenames
for the same attachment force equal timestamp/uuid pairs. -/
theorem unique_filename_inj (t1 u1 t2 u2 n : List Char)
    (ht1 : t1.length = 15) (ht2 : t2.length = 15)
    (hu1 : u1.length = 6) (hu2 : u2.length = 6)
    (h : unique_filename t1 u1 n = unique_filename t2 u2 n) :
    t1 = t2 ∧ u1 = u2 := by
  simp only [unique_filename, List.append_assoc, List.cons_append] at h
  obtain ⟨hts, hrest⟩ := List.append_inj h (ht1.trans ht2.symm)
  obtain ⟨-, hrest2⟩ := List.cons.inj hrest
  obtain ⟨hus, -⟩ := List.append_inj hrest2 (hu1.trans hu2.symm)
  exact ⟨hts, hus⟩

/-- Joining the same directory path with two non-absolute components is
injective in the component. -/
theorem os_path_join_step_inj (P p1 p2 : List Char)
    (h1 : p1.headD ' ' ≠ '/') (h2 : p2.headD ' ' ≠ '/')
    (h : os_path_join_step P p1 = os_path_join_step P p2) : p1 = p2 := by
  simp only [os_path_join_step, if_neg h1, if_neg h2] at h
  by_cases hP : P = [] ∨ P.getLastD ' ' = '/'
  · rw [if_pos hP, if_pos hP] at h
    exact (List.append_right_inj _).mp h
  · rw [if_neg hP, if_neg hP] at h
    exact (List.cons.inj ((List.append_right_inj _).mp h)).2

/-- C5: two `save_attachment` calls for the same attachment, sender and
search term in one run produce distinct relative paths whenever their
timestamp/random-suffix components differ — `uuid.uuid4().hex[:6]` and
`datetime.now()` are modelled as explicit inputs of fixed shape (15-char
`%Y%m%d-%H%M%S` timestamps without `/`, 6-char hex slices), and the path is
injective in that pair. -/
theorem c5_relative_path_unique (t1 u1 t2 u2 pf se st : List Char)
    (ht1 : t1.length = 15) (ht2 : t2.length = 15)
    (hu1 : u1.length = 6) (hu2 : u2.length = 6)
    (hs1 : ¬ '/' ∈ t1) (hs2 : ¬ '/' ∈ t2)
    (hne : (t1, u1) ≠ (t2, u2)) :
    relative_path t1 u1 pf se st ≠ relative_path t2 u2 pf se st := by
  intro heq
  simp only [relative_path, os_path_join, List.foldl_cons, List.foldl_nil]
    at heq
  have hh1 := unique_filename_head_ne t1 u1 (sanitize_chars pf) ht1 hs1
  have hh2 := unique_filename_head_ne t2 u2 (sanitize_chars pf) ht2 hs2
  have hfn := os_path_join_step_inj _ _ _ hh1 hh2 heq
  obtain ⟨hts, hus⟩ :=
    unique_filename_inj t1 u1 t2 u2 (sanitize_chars pf) ht1 ht2 hu1 hu2 hfn
  exact hne (by rw [hts, hus])

/-- C5 witness: same timestamp, different random suffixes — the two
relative paths for the same attachment differ. -/
theorem c5_relative_path_unique_witness :
    relative_path "20240101-120000".data "abc123".data "report.pdf".data
        "Alice <a@x.com>".data "invoice".data
      ≠ relative_path "20240101-120000".data "abc124".data "report.pdf".data
        "Alice <a@x.com>".data "invoice".data :=
  c5_relative_path_unique "20240101-120000".data "abc123".data
    "20240101-120000".data "abc124".data "report.pdf".data
    "Alice <a@x.com>".data "invoice".data (by decide) (by decide) (by decide)
    (by decide) (by decide) (by decide) (by decide)

/-! ### attachment_handler.create_zip_from_attachments -/

/-- `file_path.replace('\\', '/')` (attachment_handler.py line 187). -/
def normalize_zip_path (l : List Char) : List Char :=
  l.map fun c => if c = '\\' then '/' else c

/-- The archive being built by `zipfile.ZipFile(zip_buffer, 'w', ...)`:
the sequence of entries written so far, each a path with its bytes. -/
structure ZipArchive where
  entries : List (List Char × List Nat)
deriving DecidableEq, Repr

/-- `zip_file.writestr(normalized_path, file_data)` appends one entry. -/
def zip_writestr (z : ZipArchive) (p : List Char) (d : List Nat) : ZipArchive :=
  ⟨z.entries ++ [(p, d)]⟩

/-- `create_zip_from_attachments` (attachment_handler.py lines 177-198):
write every staged file under its backslash-normalized path, then
`zip_buffer.seek(0)`; the second component is the resulting stream
position. -/
def create_zip_from_attachments
    (memory_files : List (List Char × List Nat)) : ZipArchive × Nat :=
  (memory_files.foldl
    (fun z pd => zip_writestr z (normalize_zip_path pd.1) pd.2) ⟨[]⟩, 0)

/-- Writing a list of files into an archive appends their normalized
entries. -/
theorem zip_fold_entries (files : List (List Char × List Nat)) :
    ∀ acc : List (List Char × List Nat),
      (files.foldl
        (fun z pd => zip_writestr z (normalize_zip_path pd.1) pd.2)
        ⟨acc⟩).entries
        = acc ++ files.map fun pd => (normalize_zip_path pd.1, pd.2) := by
  induction files with
  | nil =>
    intro acc
    simp
  | cons f fs ih =>
    intro acc
    simp only [List.foldl_cons, List.map_cons]
    have hz : zip_writestr ⟨acc⟩ (normalize_zip_path f.1) f.2
        = ⟨acc ++ [(normalize_zip_path f.1, f.2)]⟩ := rfl
    rw [hz, ih (acc ++ [(normalize_zip_path f.1, f.2)])]
    simp

/-! ### Claim C6 -/

/-- C6: the archive built from the staged files holds exactly one entry per
input pair, in order — no additions or omissions — each entry's path being
the input path with every backslash replaced by a forward slash and its
bytes unchanged, so re-reading the archive returns exactly the normalized
input pairs; the entry count matches the input count and the returned
stream is positioned at offset 0. -/
theorem c6_zip_round_trip (memory_files : List (List Char × List Nat)) :
    (create_zip_from_attachments memory_files).1.entries
        = (memory_files.map fun pd => (normalize_zip_path pd.1, pd.2)) ∧
      (create_zip_from_attachments memory_files).1.entries.length
        = memory_files.length ∧
      (create_zip_from_attachments memory_files).2 = 0 := by
  have h := zip_fold_entries memory_files []
  simp only [List.nil_append] at h
  refine ⟨h, ?_, rfl⟩
  rw [create_zip_from_attachments, h]
  simp

/-! ### attachment_handler.extract_attachments -/

/-- A node of a message's part tree.  A `node` is a payload whose dict has
a `parts` key (its own `filename`/body fields are carried but, as in the
source, never inspected); a `leaf` has no `parts` key, a `filename` string
(empty when the key is missing or empty, both falsy in Python) and
optionally an `attachmentId` inside its `body`. -/
inductive Part where
  | leaf (filename : String) (attachment_id : Option String)
  | node (filename : String) (attachment_id : Option String)
      (children : List Part)
deriving Repr

mutual

/-- `extract_attachments` (attachment_handler.py lines 142-156) with the
effect of `save_attachment` abstracted into the oracle `save`, which tells
for a given filename/attachment-id pair whether the save succeeded.  The
first component is the returned count of saved files; the second records,
in order, the qualifying leaves on which `save_attachment` was invoked. -/
def extract_attachments (save : String → Option String → Bool) :
    Part → Nat × List (String × Option String)
  | .leaf fn aid =>
    if fn ≠ "" ∧ aid.isSome then
      (if save fn aid then 1 else 0, [(fn, aid)])
    else (0, [])
  | .node _ _ children => extract_attachments_list save children

/-- The `for part in payload["parts"]` loop of `extract_attachments`. -/
def extract_attachments_list (save : String → Option String → Bool) :
    List Part → Nat × List (String × Option String)
  | [] => (0, [])
  | p :: ps =>
    let r1 := extract_attachments save p
    let r2 := extract_attachments_list save ps
    (r1.1 + r2.1, r1.2 ++ r2.2)

end

mutual

/-- The leaves of a part tree that satisfy the attachment predicate: a
non-empty filename and an `attachmentId` in the body, collected in
left-to-right order at any depth. -/
def savable_leaves : Part → List (String × Option String)
  | .leaf fn aid => if fn ≠ "" ∧ aid.isSome then [(fn, aid)] else []
  | .node _ _ children => savable_leaves_list children

/-- `savable_leaves` over a list of sibling parts. -/
def savable_leaves_list : List Part → List (String × Option String)
  | [] => []
  | p :: ps => savable_leaves p ++ savable_leaves_list ps

end

mutual

/-- The extraction walk attempts exactly the savable leaves and counts the
successful saves among them. -/
theorem extract_eq_savable (save : String → Option String → Bool) :
    ∀ t : Part, extract_attachments save t =
      ((savable_leaves t).countP (fun pr => save pr.1 pr.2),
        savable_leaves t)
  | .leaf fn aid => by
    by_cases hq : fn ≠ "" ∧ aid.isSome
    · by_cases hs : save fn aid
      · simp [extract_attachments, savable_leaves, hq, hs, List.countP_cons]
      · simp [extract_attachments, savable_leaves, hq, hs, List.countP_cons]
    · simp [extract_attachments, savable_leaves, hq]
  | .node fn aid children => by
    rw [extract_attachments, savable_leaves]
    exact extract_list_eq_savable save children

/-- List version of `extract_eq_savable`. -/
theorem extract_list_eq_savable (save : String → Option String → Bool) :
    ∀ ts : List Part, extract_attachments_list save ts =
      ((savable_leaves_list ts).countP (fun pr => save pr.1 pr.2),
        savable_leaves_list ts)
  | [] => by
    simp [extract_attachments_list, savable_leaves_list]
  | p :: ps => by
    rw [extract_attachments_list, savable_leaves_list]
    rw [extract_eq_savable save p, extract_list_eq_savable save ps]
    simp [List.countP_append]

end

/-! ### Claim C1 -/

/-- C1: for every part tree and every behaviour of the underlying
per-attachment save, the extraction walk invokes the save exactly on the
leaves (parts without a `parts` list) that have a non-empty filename and an
`attachmentId` in their body — recursing through composite parts at any
depth and shape, skipping non-qualifying leaves without effect — and
returns the number of those leaves whose save succeeded; when every save
succeeds the count is exactly the number of qualifying leaves. -/
theorem c1_extraction_completeness (save : String → Option String → Bool)
    (t : Part) :
    (extract_attachments save t).2 = savable_leaves t ∧
      (extract_attachments save t).1
        = (savable_leaves t).countP (fun pr => save pr.1 pr.2) ∧
      (extract_attachments (fun _ _ => true) t).1
        = (savable_leaves t).length := by
  rw [extract_eq_savable save t, extract_eq_savable (fun _ _ => true) t]
  exact ⟨rfl, rfl, by simp⟩

/-! ### ui_components.format_query -/

/-- A `datetime.date`. -/
structure PyDate where
  year : Nat
  month : Nat
  day : Nat
deriving DecidableEq, Repr

/-- Gregorian leap years, as in `datetime`. -/
def is_leap (y : Nat) : Bool :=
  (y % 4 == 0 && y % 100 != 0) || y % 400 == 0

/-- Days in a Gregorian month. -/
def days_in_month (y m : Nat) : Nat :=
  if m = 2 then (if is_leap y then 29 else 28)
  else if m = 4 ∨ m = 6 ∨ m = 9 ∨ m = 11 then 30
  else 31

/-- `date + datetime.timedelta(days=1)`. -/
def add_one_day (d : PyDate) : PyDate :=
  if d.day < days_in_month d.year d.month then ⟨d.year, d.month, d.day + 1⟩
  else if d.month < 12 then ⟨d.year, d.month + 1, 1⟩
  else ⟨d.year + 1, 1, 1⟩

/-- Zero-pad to two digits (`%m`, `%d`). -/
def pad2 (n : Nat) : String :=
  if n < 10 then "0" ++ toString n else toString n

/-- Zero-pad to four digits (`%Y`). -/
def pad4 (n : Nat) : String :=
  if n < 10 then "000" ++ toString n
  else if n < 100 then "00" ++ toString n
  else if n < 1000 then "0" ++ toString n
  else toString n

/-- `date.strftime('%Y/%m/%d')`. -/
def strftime_ymd (d : PyDate) : String :=
  pad4 d.year ++ "/" ++ pad2 d.month ++ "/" ++ pad2 d.day

/-- `format_query` (ui_components.py lines 112-144): always start from
`has:attachment`; add `from:` with the bracketed address extracted from a
`Name <email>` sender, or the sender verbatim; quote a single keyword, or
split a comma-separated keyword list, strip and quote each non-empty
alternative and join them with `OR` in parentheses; add `after:` for the
start date and `before:` for the end date plus one day; join the clauses
with single spaces. -/
def format_query (sender keyword : String)
    (start_date end_date : Option PyDate) : String :=
  let query1 : List String := ["has:attachment"]
  let query2 :=
    if sender ≠ "" then
      if '<' ∈ sender.data ∧ '>' ∈ sender.data then
        query1 ++ ["from:" ++ String.mk (py_angle_email sender.data)]
      else
        query1 ++ ["from:" ++ sender]
    else query1
  let query3 :=
    if keyword ≠ "" then
      if ',' ∈ keyword.data then
        let keywords := (split_on ',' keyword.data).map strip_chars
        let keyword_query := String.intercalate " OR "
          ((keywords.filter (· ≠ [])).map
            (fun k => "\"" ++ String.mk k ++ "\""))
        if keyword_query ≠ "" then query2 ++ ["(" ++ keyword_query ++ ")"]
        else query2
      else
        query2 ++ ["\"" ++ keyword ++ "\""]
    else query2
  let query4 :=
    match start_date with
    | some d => query3 ++ ["after:" ++ strftime_ymd d]
    | none => query3
  let query5 :=
    match end_date with
    | some d => query4 ++ ["before:" ++ strftime_ymd (add_one_day d)]
    | none => query4
  String.intercalate " " query5

/-! ### Claim C7 -/

/-- C7: the query built for sender `Alice <a@x.com>`, keywords
`invoice,report`, start date 2024-01-01 and end date 2024-01-31 is exactly
the space-joined clauses `has:attachment`, `from:a@x.com`,
`("invoice" OR "report")`, `after:2024/01/01` and `before:2024/02/01` — in
particular it contains each of those clauses, with the exclusive `before:`
boundary moved one day past the requested end date. -/
theorem c7_query_construction :
    format_query "Alice <a@x.com>" "invoice,report"
        (some ⟨2024, 1, 1⟩) (some ⟨2024, 1, 31⟩) =
      "has:attachment from:a@x.com (\"invoice\" OR \"report\") " ++
        "after:2024/01/01 before:2024/02/01" := by
  decide

/-! ### gmail_utils.get_unique_senders -/

/-- `senders[key] = value` on a Python dict, embedded as an association
list: replace the value of an existing key, else append a new entry. -/
def dict_insert (d : List (List Char × List Char)) (k v : List Char) :
    List (List Char × List Char) :=
  if k ∈ d.map Prod.fst then
    d.map fun p => if p.1 = k then (k, v) else p
  else
    d ++ [(k, v)]

/-- The per-message body of `get_unique_senders` (gmail_utils.py lines
160-168) applied to one `From` header value (`""` when the header is
missing): skip empty headers; key a `Name <email>` header by its bracketed
address keeping the full header as value; key a bare header by its stripped
form. -/
def process_sender (d : List (List Char × List Char)) (sender : List Char) :
    List (List Char × List Char) :=
  if sender = [] then d
  else if '<' ∈ sender ∧ '>' ∈ sender then
    dict_insert d (py_angle_email sender) sender
  else
    dict_insert d (strip_chars sender) (strip_chars sender)

/-- The senders dict accumulated over all fetched headers.  The
`range(0, len(messages), BATCH_SIZE)` slicing of the source walks the
messages in order in fixed-size groups purely for progress reporting, so it
processes exactly the whole list in order. -/
def senders_map (headers : List (List Char)) :
    List (List Char × List Char) :=
  headers.foldl process_sender []

/-- `sorted(senders.values())` (gmail_utils.py line 174): the retained
header strings sorted lexicographically on the full string. -/
def get_unique_senders_from_headers (headers : List (List Char)) :
    List (List Char) :=
  List.mergeSort ((senders_map headers).map Prod.snd)

/-- `get_unique_senders` (gmail_utils.py lines 144-178): search for
attachment-bearing messages (cap 150); if the search raises, the enclosing
`except` returns `[]`; otherwise fetch each message's `From` header —
per-message fetch failures are skipped — and return the sorted retained
header strings. -/
def get_unique_senders (provider : Provider)
    (fetch : String → Except ApiError String) : List String :=
  match (search_messages provider "has:attachment" 150).outcome with
  | .error _ => []
  | .ok msgs =>
    (get_unique_senders_from_headers
      ((msgs.filterMap fun i => (fetch i).toOption).map String.data)).map
      String.mk

/-! ### Lemmas about the senders dict -/

/-- `dict_insert` leaves the key list unchanged or appends the new key. -/
theorem dict_insert_keys (d : List (List Char × List Char))
    (k v : List Char) :
    (dict_insert d k v).map Prod.fst =
      if k ∈ d.map Prod.fst then d.map Prod.fst
      else d.map Prod.fst ++ [k] := by
  by_cases hk : k ∈ d.map Prod.fst
  · rw [dict_insert, if_pos hk, if_pos hk, List.map_map]
    refine List.map_congr_left ?_
    intro p _
    by_cases hp : p.1 = k
    · simp [Function.comp, hp]
    · simp [Function.comp, hp]
  · rw [dict_insert, if_neg hk, if_neg hk]
    simp

/-- `dict_insert` preserves distinctness of the keys. -/
theorem dict_insert_keys_nodup (d : List (List Char × List Char))
    (k v : List Char) (h : (d.map Prod.fst).Nodup) :
    ((dict_insert d k v).map Prod.fst).Nodup := by
  rw [dict_insert_keys]
  by_cases hk : k ∈ d.map Prod.fst
  · rwa [if_pos hk]
  · rw [if_neg hk]
    rw [List.nodup_append]
    refine ⟨h, List.nodup_singleton k, ?_⟩
    intro a ha hb
    rw [List.mem_singleton] at hb
    exact hk (hb ▸ ha)

/-- Entries of `dict_insert` are old entries or the inserted pair. -/
theorem mem_dict_insert (d : List (List Char × List Char))
    (k v : List Char) (p : List Char × List Char)
    (hp : p ∈ dict_insert d k v) : p ∈ d ∨ p = (k, v) := by
  rw [dict_insert] at hp
  by_cases hk : k ∈ d.map Prod.fst
  · rw [if_pos hk] at hp
    obtain ⟨q, hq, rfl⟩ := List.mem_map.mp hp
    by_cases hq1 : q.1 = k
    · rw [if_pos hq1]
      exact .inr rfl
    · rw [if_neg hq1]
      exact .inl hq
  · rw [if_neg hk] at hp
    rcases List.mem_append.mp hp with hp | hp
    · exact .inl hp
    · exact .inr (List.mem_singleton.mp hp)

/-- How each header contributes to the dict. -/
def header_entry (h : List Char) (p : List Char × List Char) : Prop :=
  h ≠ [] ∧
    ((('<' ∈ h ∧ '>' ∈ h) ∧ p = (py_angle_email h, h)) ∨
      (¬ ('<' ∈ h ∧ '>' ∈ h) ∧ p = (strip_chars h, strip_chars h)))

/-- Entries after processing one header are old entries or the header's
own. -/
theorem mem_process_sender (d : List (List Char × List Char))
    (h : List Char) (p : List Char × List Char)
    (hp : p ∈ process_sender d h) : p ∈ d ∨ header_entry h p := by
  rw [process_sender] at hp
  by_cases hnil : h = []
  · rw [if_pos hnil] at hp
    exact .inl hp
  · rw [if_neg hnil] at hp
    by_cases hang : '<' ∈ h ∧ '>' ∈ h
    · rw [if_pos hang] at hp
      rcases mem_dict_insert _ _ _ _ hp with hp | hp
      · exact .inl hp
      · exact .inr ⟨hnil, .inl ⟨hang, hp⟩⟩
    · rw [if_neg hang] at hp
      rcases mem_dict_insert _ _ _ _ hp with hp | hp
      · exact .inl hp
      · exact .inr ⟨hnil, .inr ⟨hang, hp⟩⟩

/-- Processing one header preserves distinctness of the keys. -/
theorem process_sender_keys_nodup (d : List (List Char × List Char))
    (h : List Char) (hd : (d.map Prod.fst).Nodup) :
    ((process_sender d h).map Prod.fst).Nodup := by
  rw [process_sender]
  by_cases hnil : h = []
  · rwa [if_pos hnil]
  · rw [if_neg hnil]
    by_cases hang : '<' ∈ h ∧ '>' ∈ h
    · rw [if_pos hang]
      exact dict_insert_keys_nodup _ _ _ hd
    · rw [if_neg hang]
      exact dict_insert_keys_nodup _ _ _ hd

/-- Key distinctness holds for any fold of `process_sender`. -/
theorem foldl_process_keys_nodup :
    ∀ (hs : List (List Char)) (d : List (List Char × List Char)),
      (d.map Prod.fst).Nodup →
      ((hs.foldl process_sender d).map Prod.fst).Nodup := by
  intro hs
  induction hs with
  | nil => intro d hd; simpa using hd
  | cons h hs ih =>
    intro d hd
    rw [List.foldl_cons]
    exact ih _ (process_sender_keys_nodup d h hd)

/-- Every entry of a fold of `process_sender` is an initial entry or comes
from one of the processed headers. -/
theorem foldl_process_mem :
    ∀ (hs : List (List Char)) (d : List (List Char × List Char))
      (p : List Char × List Char),
      p ∈ hs.foldl process_sender d →
      p ∈ d ∨ ∃ h ∈ hs, header_entry h p := by
  intro hs
  induction hs with
  | nil =>
    intro d p hp
    exact .inl (by simpa using hp)
  | cons h hs ih =>
    intro d p hp
    rw [List.foldl_cons] at hp
    rcases ih _ p hp with hp2 | ⟨h2, hh2, he2⟩
    · rcases mem_process_sender d h p hp2 with hp3 | hp3
      · exact .inl hp3
      · exact .inr ⟨h, List.mem_cons_self h hs, hp3⟩
    · exact .inr ⟨h2, List.mem_cons_of_mem h hh2, he2⟩

/-! ### Claim C9 -/

/-- C9: the sender directory (1) returns the retained header strings sorted
lexicographically on the full string; (2) the output is a permutation of
the dict's values — one retained value per entry; (3) the dict's keys — the
bare email addresses — are distinct, so messages from the same address
collapse to one entry; and (4) every entry of the dict comes from some
non-empty fetched header, keyed by the bracketed address with the full
original header string as value for `Name <email>` headers, and keyed by
the stripped header with that same stripped string as value for bare
headers. -/
theorem c9_unique_senders_keying_and_sort (headers : List (List Char)) :
    List.Sorted (· ≤ ·) (get_unique_senders_from_headers headers) ∧
      List.Perm (get_unique_senders_from_headers headers)
        ((senders_map headers).map Prod.snd) ∧
      ((senders_map headers).map Prod.fst).Nodup ∧
      (∀ p ∈ senders_map headers, ∃ h ∈ headers, header_entry h p) := by
  refine ⟨List.sorted_mergeSort' _, List.mergeSort_perm _ _,
    foldl_process_keys_nodup headers [] (by simp), ?_⟩
  intro p hp
  rcases foldl_process_mem headers [] p hp with hp2 | hp2
  · simp at hp2
  · exact hp2

/-- C9 witness: two headers carrying the same bare address plus a bare
address header — the dict keeps two distinct keys and the output is
sorted. -/
theorem c9_unique_senders_keying_and_sort_witness :
    List.Sorted (· ≤ ·) (get_unique_senders_from_headers
      ["B <a@x.com>".data, "Alice <a@x.com>".data, "bob@y.com".data]) ∧
      ((senders_map
        ["B <a@x.com>".data, "Alice <a@x.com>".data,
          "bob@y.com".data]).map Prod.fst).Nodup :=
  ⟨(c9_unique_senders_keying_and_sort
      ["B <a@x.com>".data, "Alice <a@x.com>".data, "bob@y.com".data]).1,
    (c9_unique_senders_keying_and_sort
      ["B <a@x.com>".data, "Alice <a@x.com>".data,
        "bob@y.com".data]).2.2.1⟩

/-! ### Claim C10 -/

/-- A provider that always fails with a non-retryable HTTP 404. -/
def always_404_provider : Provider := fun _ _ _ => .error (.http 404)

/-- C10: `get_unique_senders` wraps its whole body in a `try` whose
`except` logs and returns `[]`: whenever the underlying message search
raises — for any provider behaviour and any error — the function returns
the empty list instead of propagating; per-message header-fetch failures
are already skipped inside the loop, so the function never raises. -/
theorem c10_sender_scan_never_raises (provider : Provider)
    (fetch : String → Except ApiError String) (e : ApiError)
    (h : (search_messages provider "has:attachment" 150).outcome
        = .error e) :
    get_unique_senders provider fetch = [] := by
  rw [get_unique_senders, h]

/-- C10 witness: with a provider that always fails with HTTP 404 the
search raises and the sender scan returns `[]`. -/
theorem c10_sender_scan_never_raises_witness :
    get_unique_senders always_404_provider (fun _ => .ok "") = [] :=
  c10_sender_scan_never_raises always_404_provider (fun _ => .ok "")
    (.http 404) rfl

end GmailDl
